import Mathlib

/-!
Shallow embedding of `src/practice.py`, a batch pipeline that loads a sales
CSV with pandas, normalizes it, and materializes bronze / silver / gold
layers in a Cassandra keyspace.

Modelling conventions:
* A pandas cell that goes through `pd.to_numeric(..., errors='coerce')` is
  modelled by `NumVal`: a finite value carries an exact rational (rounding of
  floating point is not modelled), `posInf`/`negInf` are the two IEEE
  infinities, and `nan` is simultaneously the parse-failure marker and the
  missing-value marker (exactly what `errors='coerce'` produces).
* A cell that goes through `pd.to_datetime(..., errors='coerce').dt.date` is
  modelled by `Option Nat` (a day index); `none` is `NaT`.
* The data frame is a list of rows plus two column-presence flags
  (`order_id` after the rename of line 13, and `region`).
* Cassandra `INSERT` is an upsert on the partition key; the bronze table is
  an association list keyed by `order_id`, and the silver table carries a
  fresh-key counter standing for the `uuid()` generator of line 123.
* `session.execute` can raise; the per-row `try/except` loops are modelled
  with a per-attempt fault oracle `Nat → Option String` (`some msg` means the
  store raised an exception with message `msg` on that attempt).
-/

/-- Result of `pd.to_numeric(..., errors='coerce')` on one cell
(`src/practice.py` lines 27 and 29): a finite number, one of the two
infinities, or `NaN` (the coercion's failure/missing marker). -/
inductive NumVal where
  | fin (q : ℚ)
  | posInf
  | negInf
  | nan
deriving DecidableEq, Repr

/-- The pandas missing-value test used by `dropna` (line 32): only `NaN` is
missing; the infinities are ordinary (non-missing) floats. -/
def NumVal.isNA : NumVal → Bool
  | .nan => true
  | _ => false

/-- Finiteness of a coerced numeric value. -/
def NumVal.isFinite : NumVal → Bool
  | .fin _ => true
  | _ => false

/-- IEEE-style addition on coerced values (exact on finite values; rounding is
not modelled): `NaN` absorbs, opposite infinities give `NaN`, an infinity
absorbs finite values. -/
def NumVal.add : NumVal → NumVal → NumVal
  | .fin a, .fin b => .fin (a + b)
  | .fin _, .posInf => .posInf
  | .fin _, .negInf => .negInf
  | .fin _, .nan => .nan
  | .posInf, .fin _ => .posInf
  | .posInf, .posInf => .posInf
  | .posInf, .negInf => .nan
  | .posInf, .nan => .nan
  | .negInf, .fin _ => .negInf
  | .negInf, .posInf => .nan
  | .negInf, .negInf => .negInf
  | .negInf, .nan => .nan
  | .nan, _ => .nan

instance : Add NumVal := ⟨NumVal.add⟩

instance : Zero NumVal := ⟨NumVal.fin 0⟩

lemma NumVal.add_def (a b : NumVal) : a + b = NumVal.add a b := rfl

lemma NumVal.add_assoc' (a b c : NumVal) : a + b + c = a + (b + c) := by
  cases a <;> cases b <;> cases c <;>
    simp [NumVal.add_def, NumVal.add, add_assoc]

lemma NumVal.add_comm' (a b : NumVal) : a + b = b + a := by
  cases a <;> cases b <;> simp [NumVal.add_def, NumVal.add, add_comm]

lemma NumVal.zero_add' (a : NumVal) : 0 + a = a := by
  cases a <;> simp [NumVal.add_def, NumVal.add]

lemma NumVal.add_zero' (a : NumVal) : a + 0 = a := by
  cases a <;> simp [NumVal.add_def, NumVal.add]

instance : AddCommMonoid NumVal where
  add_assoc := NumVal.add_assoc'
  zero_add := NumVal.zero_add'
  add_zero := NumVal.add_zero'
  add_comm := NumVal.add_comm'
  nsmul := nsmulRec

/-- One raw CSV row, seen through the column coercions the script applies:
`order_id` and `amount` through `pd.to_numeric(errors='coerce')` (lines
27, 29), `sale_date` through `pd.to_datetime(errors='coerce').dt.date`
(line 28, `none` = `NaT`), `region` as an optional text cell (`none` = no
value / `NaN`). -/
structure RawRow where
  order_id : NumVal
  sale_date : Option Nat
  amount : NumVal
  region : Option String
deriving DecidableEq, Repr

/-- The loaded data frame after the rename of line 13: its rows plus the
column-presence facts the script branches on (`'order_id' in df.columns`,
line 20, and `'region' in df.columns`, line 174). -/
structure RawFrame where
  rows : List RawRow
  hasOrderId : Bool
  hasRegion : Bool
deriving DecidableEq, Repr

/-- A row of the cleaned data frame that survives `dropna` (line 32): the
validated unit of work. `order_id` and `amount` are non-`NaN` `NumVal`s,
`sale_date` is an actual date. -/
structure SalesRecord where
  order_id : NumVal
  sale_date : Nat
  amount : NumVal
  region : Option String
deriving DecidableEq, Repr

/-- The coerced `order_id` of a row: the placeholder constant `0` when the
column is absent (lines 20-22), otherwise the row's own coerced cell. -/
def oidOf (hasOrderId : Bool) (r : RawRow) : NumVal :=
  if hasOrderId then r.order_id else NumVal.fin 0

/-- Per-row normalization (`src/practice.py` lines 20-32): substitute the
placeholder `order_id` if the column is missing, then drop the row iff
`order_id`, `sale_date` or `amount` carries the missing marker
(`df.dropna(subset=['order_id', 'sale_date', 'amount'])`). -/
def normRow (hasOrderId : Bool) (hasRegion : Bool) (r : RawRow) : Option SalesRecord :=
  match r.sale_date with
  | none => none
  | some d =>
      if (oidOf hasOrderId r).isNA || r.amount.isNA then none
      else some ⟨oidOf hasOrderId r, d, r.amount, if hasRegion then r.region else none⟩

/-- RecordNormalizer: the cleaned data frame (`src/practice.py` lines 20-32),
row order preserved. -/
def normalizeFrame (f : RawFrame) : List SalesRecord :=
  f.rows.filterMap (normRow f.hasOrderId f.hasRegion)

example : normalizeFrame ⟨[⟨NumVal.fin 1, some 3, NumVal.fin 5, none⟩], true, false⟩
    = [⟨NumVal.fin 1, 3, NumVal.fin 5, none⟩] := rfl

example : normalizeFrame ⟨[⟨NumVal.nan, some 3, NumVal.fin 5, none⟩], true, false⟩ = [] := rfl

/-! ## Schema provisioning (`src/practice.py` lines 55-100) -/

/-- Cassandra column types appearing in the five `CREATE TABLE` statements. -/
inductive ColType where
  | int
  | date
  | float
  | uuid
  | text
deriving DecidableEq, Repr

/-- The shape of one table: its primary-key column and its plain columns. -/
structure TableShape where
  key : String × ColType
  attrs : List (String × ColType)
deriving DecidableEq, Repr

/-- The five table schemas of the keyspace; `none` means the table does not
exist yet. -/
structure SchemaStore where
  bronze : Option TableShape
  silver : Option TableShape
  gold1 : Option TableShape
  gold2 : Option TableShape
  gold3 : Option TableShape
deriving DecidableEq, Repr

/-- Semantics of `CREATE TABLE IF NOT EXISTS` (lines 55-100): create the
table when absent, otherwise leave the existing table untouched; in either
case the statement succeeds. -/
def createIfNotExists (cur : Option TableShape) (shape : TableShape) : Option TableShape :=
  match cur with
  | none => some shape
  | some s => some s

/-- Shape of `bronze_table` (lines 55-61). -/
def bronzeShape : TableShape :=
  ⟨("order_id", ColType.int), [("sale_date", ColType.date), ("amount", ColType.float)]⟩

/-- Shape of `silver_table` (lines 65-72). -/
def silverShape : TableShape :=
  ⟨("sale_id", ColType.uuid),
   [("order_id", ColType.int), ("sale_date", ColType.date), ("amount", ColType.float)]⟩

/-- Shape of `gold_table1` (lines 76-81). -/
def gold1Shape : TableShape := ⟨("order_id", ColType.int), [("total_sales", ColType.float)]⟩

/-- Shape of `gold_table2` (lines 85-90). -/
def gold2Shape : TableShape := ⟨("sale_date", ColType.date), [("total_sales", ColType.float)]⟩

/-- Shape of `gold_table3` (lines 94-99). -/
def gold3Shape : TableShape := ⟨("region", ColType.text), [("total_sales", ColType.float)]⟩

/-- SchemaProvisioner: the five `CREATE TABLE IF NOT EXISTS` statements of
lines 55-100, in order. -/
def provisionSchemas (st : SchemaStore) : SchemaStore :=
  { bronze := createIfNotExists st.bronze bronzeShape
    silver := createIfNotExists st.silver silverShape
    gold1 := createIfNotExists st.gold1 gold1Shape
    gold2 := createIfNotExists st.gold2 gold2Shape
    gold3 := createIfNotExists st.gold3 gold3Shape }

/-! ## Bronze and silver tables, per-row write loops (lines 103-130) -/

/-- The non-key attributes stored in one bronze row. -/
structure BronzeVal where
  sale_date : Nat
  amount : NumVal
deriving DecidableEq, Repr

/-- The bronze table: an association list from `order_id` to the stored
attributes, at most one entry per key. -/
abbrev BronzeTable := List (NumVal × BronzeVal)

/-- Cassandra upsert on an association list: replace the (unique) entry with
the given key if present, otherwise append a new entry. This is the
semantics of `INSERT` into a table whose partition key is that column. -/
def tblPut {κ ν : Type} [DecidableEq κ] : List (κ × ν) → κ → ν → List (κ × ν)
  | [], k, v => [(k, v)]
  | (k', v') :: t, k, v => if k' = k then (k, v) :: t else (k', v') :: tblPut t k v

/-- Key lookup in an association-list table. -/
def tblGet {κ ν : Type} [DecidableEq κ] (t : List (κ × ν)) (k : κ) : Option ν :=
  (t.find? (fun e => e.1 = k)).map (fun e => e.2)

/-- One `INSERT INTO bronze_table` (lines 105-111): an upsert keyed by the
record's `order_id`. -/
def bronzeInsert (t : BronzeTable) (r : SalesRecord) : BronzeTable :=
  tblPut t r.order_id ⟨r.sale_date, r.amount⟩

/-- One stored silver row: the generated `sale_id` key plus the record's
fields (lines 120-126). -/
structure SilverRow where
  sale_id : Nat
  order_id : NumVal
  sale_date : Nat
  amount : NumVal
deriving DecidableEq, Repr

/-- The silver table together with its fresh-key supply: `next` stands for
the `uuid()` generator of line 123, which never repeats a key. -/
structure SilverTable where
  next : Nat
  rows : List SilverRow
deriving DecidableEq, Repr

/-- One `INSERT INTO silver_table (sale_id, ...) VALUES (uuid(), ...)`
(lines 120-126): a pure insert under a fresh generated key. -/
def silverInsert (t : SilverTable) (r : SalesRecord) : SilverTable :=
  ⟨t.next + 1, t.rows ++ [⟨t.next, r.order_id, r.sale_date, r.amount⟩]⟩

/-- Outcome of one per-row write loop: rows attempted, rows that succeeded,
and for each failed row its `order_id` with the exception message the
`except` branch printed (lines 112-113 and 127-128). -/
structure WriteReport where
  attempted : Nat
  succeeded : Nat
  failures : List (NumVal × String)
deriving DecidableEq, Repr

/-- The per-row `try/except` write loop shared by the bronze and silver
stages (lines 103-113 and 118-128), over rows pre-paired with their attempt
index. `fault i = some msg` means `session.execute` raised with message
`msg` on attempt `i`: the row is skipped, the error is recorded, and the
loop continues with the next row. Nothing propagates past the loop. -/
def writeRowsAux {σ : Type} (fault : Nat → Option String) (ins : σ → SalesRecord → σ) :
    σ → List (Nat × SalesRecord) → σ × WriteReport
  | t, [] => (t, ⟨0, 0, []⟩)
  | t, (i, r) :: rest =>
      match fault i with
      | some msg =>
          let p := writeRowsAux fault ins t rest
          (p.1, ⟨p.2.attempted + 1, p.2.succeeded, (r.order_id, msg) :: p.2.failures⟩)
      | none =>
          let p := writeRowsAux fault ins (ins t r) rest
          (p.1, ⟨p.2.attempted + 1, p.2.succeeded + 1, p.2.failures⟩)

/-- LayerWriter, bronze stage (lines 103-113). -/
def writeBronze (fault : Nat → Option String) (t : BronzeTable) (rs : List SalesRecord) :
    BronzeTable × WriteReport :=
  writeRowsAux fault bronzeInsert t rs.enum

/-- LayerWriter, silver stage (lines 118-128). -/
def writeSilver (fault : Nat → Option String) (t : SilverTable) (rs : List SalesRecord) :
    SilverTable × WriteReport :=
  writeRowsAux fault silverInsert t rs.enum

/-! ## Gold rollups (lines 133-189) -/

/-- Pandas series sum with the default `skipna=True` used by
`.agg({'amount': 'sum'})`: `NaN` entries are skipped, the rest accumulate
with float addition. -/
def seriesSum (l : List NumVal) : NumVal :=
  (l.filter (fun v => !v.isNA)).sum

/-- `df.groupby(col).agg({'amount': 'sum'})` (lines 133, 154): one entry per
distinct key, carrying the sum of the amounts of the rows with that key. -/
def rollupBy {κ : Type} [DecidableEq κ] (key : SalesRecord → κ) (rs : List SalesRecord) :
    List (κ × NumVal) :=
  ((rs.map key).dedup).map
    (fun k => (k, seriesSum ((rs.filter (fun r => key r = k)).map (fun r => r.amount))))

/-- `gold1 = df.groupby('order_id').agg({'amount': 'sum'})` (line 133). -/
def goldByOrder (rs : List SalesRecord) : List (NumVal × NumVal) :=
  rollupBy (fun r => r.order_id) rs

/-- `gold2 = df.groupby('sale_date').agg({'amount': 'sum'})` (line 154). -/
def goldByDate (rs : List SalesRecord) : List (Nat × NumVal) :=
  rollupBy (fun r => r.sale_date) rs

/-- `gold3 = df.groupby('region').agg({'amount': 'sum'})` (line 175): pandas
`groupby` drops rows whose key is the missing value, so only rows with an
actual region contribute, and the keys are the distinct present regions. -/
def goldByRegion (rs : List SalesRecord) : List (String × NumVal) :=
  ((rs.filterMap (fun r => r.region)).dedup).map
    (fun k => (k, seriesSum ((rs.filter (fun r => r.region = some k)).map (fun r => r.amount))))

/-- The gold-by-region stage (lines 174-189): the rollup is computed and
written only when the cleaned frame has a `region` column; otherwise the
stage is skipped entirely (`none`). -/
def goldRegionStage (hasRegion : Bool) (rs : List SalesRecord) :
    Option (List (String × NumVal)) :=
  if hasRegion then some (goldByRegion rs) else none

/-- Grand total of a rollup: the plain sum of its per-group totals. -/
def grandTotal {κ : Type} (rollup : List (κ × NumVal)) : NumVal :=
  (rollup.map (fun e => e.2)).sum

/-- The sum of all amounts of a record set. -/
def totalAmount (rs : List SalesRecord) : NumVal :=
  (rs.map (fun r => r.amount)).sum


/-! ## Concrete fixtures used by the witness checks -/

/-- Fault oracle for concrete checks: only write attempt 0 raises. -/
def faultW : Nat → Option String := fun i => if i = 0 then some "store error" else none

/-- A concrete validated record. -/
def recA : SalesRecord := ⟨NumVal.fin 1, 0, NumVal.fin 5, none⟩

/-- A concrete validated record with a different `order_id`. -/
def recB : SalesRecord := ⟨NumVal.fin 2, 1, NumVal.fin 7, none⟩

/-- A concrete validated record sharing `recA`'s `order_id` with a different
amount. -/
def recA2 : SalesRecord := ⟨NumVal.fin 1, 1, NumVal.fin 7, none⟩

/-- A concrete two-record batch. -/
def rsW : List SalesRecord := [recA, recB]

/-- An empty silver table with a fresh key supply. -/
def emptySilver : SilverTable := ⟨0, []⟩

/-- A store with none of the five tables created yet. -/
def emptySchemas : SchemaStore := ⟨none, none, none, none, none⟩

/-- A frame with no `order_id` column and two rows that survive cleaning. -/
def frameNoOid : RawFrame :=
  ⟨[⟨NumVal.nan, some 0, NumVal.fin 5, none⟩, ⟨NumVal.nan, some 1, NumVal.fin 7, none⟩],
   false, false⟩

/-- A frame whose single row has an unparseable `order_id` cell. -/
def frameBad : RawFrame := ⟨[⟨NumVal.nan, some 0, NumVal.fin 1, none⟩], true, true⟩

/-- A frame whose single row carries an infinite `amount`. -/
def frameInf : RawFrame := ⟨[⟨NumVal.fin 1, some 0, NumVal.posInf, none⟩], true, false⟩

/-- A frame that has a `region` column but no rows at all. -/
def frameEmptyRegion : RawFrame := ⟨[], true, true⟩

/-! ## Helper lemmas: normalization -/

lemma normRow_eq_some {ho hr : Bool} {r : RawRow} {s : SalesRecord}
    (h : normRow ho hr r = some s) :
    s.order_id = oidOf ho r ∧ r.sale_date = some s.sale_date ∧ s.amount = r.amount ∧
      (oidOf ho r).isNA = false ∧ r.amount.isNA = false := by
  unfold normRow at h
  cases hd : r.sale_date with
  | none => simp only [hd] at h; cases h
  | some d =>
      simp only [hd] at h
      by_cases hna : ((oidOf ho r).isNA || r.amount.isNA) = true
      · rw [if_pos hna] at h; cases h
      · rw [if_neg hna] at h
        rw [Bool.or_eq_true, not_or, Bool.not_eq_true, Bool.not_eq_true] at hna
        injection h with h
        subst h
        exact ⟨rfl, rfl, rfl, hna.1, hna.2⟩

lemma normRow_eq_none {ho hr : Bool} {r : RawRow}
    (h : (oidOf ho r).isNA = true ∨ r.sale_date = none ∨ r.amount.isNA = true) :
    normRow ho hr r = none := by
  unfold normRow
  cases hd : r.sale_date with
  | none => rfl
  | some d =>
      rw [hd] at h
      rcases h with h | h | h
      · simp [h]
      · exact absurd h (by simp)
      · simp [h]

lemma normalizeFrame_amount_not_na (f : RawFrame) :
    ∀ s ∈ normalizeFrame f, s.amount.isNA = false := by
  intro s hs
  obtain ⟨r, _, hr⟩ := List.mem_filterMap.mp hs
  obtain ⟨_, _, ha, _, hna⟩ := normRow_eq_some hr
  rw [ha]; exact hna

lemma normalizeFrame_oid_zero (f : RawFrame) (h : f.hasOrderId = false) :
    ∀ s ∈ normalizeFrame f, s.order_id = NumVal.fin 0 := by
  intro s hs
  obtain ⟨r, _, hr⟩ := List.mem_filterMap.mp hs
  obtain ⟨ho, _, _, _, _⟩ := normRow_eq_some hr
  rw [ho]
  unfold oidOf
  rw [h]
  simp

/-! ## Helper lemmas: keyed upsert tables -/

lemma tblGet_nil {κ ν : Type} [DecidableEq κ] (k : κ) :
    tblGet ([] : List (κ × ν)) k = none := rfl

lemma tblGet_cons {κ ν : Type} [DecidableEq κ] (k0 : κ) (v0 : ν) (t : List (κ × ν)) (k : κ) :
    tblGet ((k0, v0) :: t) k = if k0 = k then some v0 else tblGet t k := by
  by_cases h : k0 = k
  · rw [if_pos h]
    unfold tblGet
    rw [List.find?_cons_of_pos _ (by simpa using h)]
    rfl
  · rw [if_neg h]
    unfold tblGet
    rw [List.find?_cons_of_neg _ (by simpa using h)]

lemma tblGet_tblPut_self {κ ν : Type} [DecidableEq κ] (t : List (κ × ν)) (k : κ) (v : ν) :
    tblGet (tblPut t k v) k = some v := by
  induction t with
  | nil => simp [tblPut, tblGet_cons, tblGet_nil]
  | cons e t ih =>
      obtain ⟨k0, v0⟩ := e
      by_cases h : k0 = k
      · simp [tblPut, if_pos h, tblGet_cons]
      · simp only [tblPut, if_neg h]
        rw [tblGet_cons, if_neg h]
        exact ih

lemma tblGet_tblPut_other {κ ν : Type} [DecidableEq κ] (t : List (κ × ν)) (k k' : κ) (v : ν)
    (h : k' ≠ k) : tblGet (tblPut t k v) k' = tblGet t k' := by
  induction t with
  | nil => simp [tblPut, tblGet_cons, tblGet_nil, if_neg (fun hh : k = k' => h hh.symm)]
  | cons e t ih =>
      obtain ⟨k0, v0⟩ := e
      by_cases h0 : k0 = k
      · subst h0
        simp only [tblPut, eq_self_iff_true, if_true]
        rw [tblGet_cons, tblGet_cons, if_neg (fun hh => h hh.symm),
          if_neg (fun hh => h hh.symm)]
      · simp only [tblPut, if_neg h0]
        rw [tblGet_cons, tblGet_cons, ih]

lemma tblGet_tblPut_isSome {κ ν : Type} [DecidableEq κ] (t : List (κ × ν)) (k k' : κ) (v : ν)
    (h : (tblGet t k').isSome = true) : (tblGet (tblPut t k v) k').isSome = true := by
  by_cases hk : k' = k
  · subst hk; rw [tblGet_tblPut_self]; rfl
  · rw [tblGet_tblPut_other t k k' v hk]; exact h

lemma tblPut_keys_sub {κ ν : Type} [DecidableEq κ] (t : List (κ × ν)) (k : κ) (v : ν) :
    ∀ a ∈ (tblPut t k v).map Prod.fst, a ∈ t.map Prod.fst ∨ a = k := by
  induction t with
  | nil => intro a ha; right; simpa [tblPut] using ha
  | cons e t ih =>
      obtain ⟨k0, v0⟩ := e
      intro a ha
      by_cases h0 : k0 = k
      · simp only [tblPut, if_pos h0, List.map_cons, List.mem_cons] at ha
        rcases ha with ha | ha
        · right; exact ha
        · left; simp [ha]
      · simp only [tblPut, if_neg h0, List.map_cons, List.mem_cons] at ha
        rcases ha with ha | ha
        · left; simp [ha]
        · rcases ih a ha with hh | hh
          · left; simp [hh]
          · right; exact hh

lemma tblPut_keys_nodup {κ ν : Type} [DecidableEq κ] (t : List (κ × ν)) (k : κ) (v : ν)
    (h : (t.map Prod.fst).Nodup) : ((tblPut t k v).map Prod.fst).Nodup := by
  induction t with
  | nil => simp [tblPut]
  | cons e t ih =>
      obtain ⟨k0, v0⟩ := e
      simp only [List.map_cons, List.nodup_cons] at h
      by_cases h0 : k0 = k
      · simp only [tblPut, if_pos h0, List.map_cons, List.nodup_cons]
        exact ⟨h0 ▸ h.1, h.2⟩
      · simp only [tblPut, if_neg h0, List.map_cons, List.nodup_cons]
        refine ⟨fun hmem => ?_, ih h.2⟩
        rcases tblPut_keys_sub t k v k0 hmem with hh | hh
        · exact h.1 hh
        · exact h0 hh

lemma tblPut_countP_key {κ ν : Type} [DecidableEq κ] (t : List (κ × ν)) (k : κ) (v : ν)
    (h : (t.map Prod.fst).Nodup) :
    (tblPut t k v).countP (fun e => e.1 = k) = 1 := by
  induction t with
  | nil => simp [tblPut, List.countP_cons]
  | cons e t ih =>
      obtain ⟨k0, v0⟩ := e
      simp only [List.map_cons, List.nodup_cons] at h
      by_cases h0 : k0 = k
      · subst h0
        simp only [tblPut, if_pos rfl, List.countP_cons]
        have hz : t.countP (fun e => e.1 = k0) = 0 := by
          rw [List.countP_eq_zero]
          intro e he hk
          simp only [decide_eq_true_eq] at hk
          exact h.1 (hk ▸ List.mem_map_of_mem Prod.fst he)
        simp [hz]
      · simp only [tblPut, if_neg h0, List.countP_cons]
        simp [ih h.2, h0]

/-! ## Helper lemmas: grouped sums -/

lemma sum_filter_split {α M : Type} [AddCommMonoid M] (g : α → M) (p : α → Bool) :
    ∀ l : List α,
      ((l.filter p).map g).sum + ((l.filter (fun a => !p a)).map g).sum = (l.map g).sum
  | [] => by simp
  | a :: l => by
      by_cases h : p a
      · simp only [List.filter_cons, h, if_pos, List.map_cons, List.sum_cons,
          Bool.not_true, Bool.false_eq_true, if_false, List.map]
        rw [add_assoc, sum_filter_split g p l]
      · have h' : p a = false := by simpa using h
        simp only [List.filter_cons, h', Bool.false_eq_true, if_false, Bool.not_false,
          if_true, List.map_cons, List.sum_cons, List.map]
        rw [add_left_comm, sum_filter_split g p l]

lemma sum_over_classes {α κ M : Type} [DecidableEq κ] [AddCommMonoid M]
    (key : α → κ) (g : α → M) :
    ∀ (ks : List κ), ks.Nodup → ∀ (l : List α), (∀ a ∈ l, key a ∈ ks) →
      (ks.map (fun k => ((l.filter (fun a => key a = k)).map g).sum)).sum = (l.map g).sum
  | [], _, l, hcov => by
      cases l with
      | nil => simp
      | cons a t => exact absurd (hcov a (by simp)) (List.not_mem_nil _)
  | k :: ks, hnd, l, hcov => by
      simp only [List.nodup_cons] at hnd
      simp only [List.map_cons, List.sum_cons]
      have hfilter : ∀ k' ∈ ks,
          l.filter (fun a => key a = k')
            = (l.filter (fun a => !(key a = k))).filter (fun a => key a = k') := by
        intro k' hk'
        rw [List.filter_filter]
        apply List.filter_congr
        intro a _
        by_cases hak : key a = k'
        · have hne : ¬(k' = k) := fun hh => hnd.1 (hh ▸ hk')
          simp [hak, hne]
        · simp [hak]
      have hmap : ks.map (fun k' => ((l.filter (fun a => key a = k')).map g).sum)
          = ks.map (fun k' =>
              (((l.filter (fun a => !(key a = k))).filter (fun a => key a = k')).map g).sum) := by
        apply List.map_congr_left
        intro k' hk'
        rw [hfilter k' hk']
      have hcov' : ∀ a ∈ l.filter (fun a => !(key a = k)), key a ∈ ks := by
        intro a ha
        have hmem := List.mem_of_mem_filter ha
        have hne : ¬(key a = k) := by simpa using List.of_mem_filter ha
        rcases List.mem_cons.mp (hcov a hmem) with hh | hh
        · exact absurd hh hne
        · exact hh
      have hrec := sum_over_classes key g ks hnd.2 (l.filter (fun a => !(key a = k))) hcov'
      rw [hmap, hrec]
      exact sum_filter_split g (fun a => key a = k) l

lemma grandTotal_rollupBy {κ : Type} [DecidableEq κ] (key : SalesRecord → κ)
    (rs : List SalesRecord) (hna : ∀ r ∈ rs, r.amount.isNA = false) :
    grandTotal (rollupBy key rs) = totalAmount rs := by
  unfold grandTotal rollupBy totalAmount
  rw [List.map_map]
  have h1 : ((rs.map key).dedup).map
        ((fun e : κ × NumVal => e.2) ∘
          (fun k => (k, seriesSum ((rs.filter (fun r => key r = k)).map (fun r => r.amount)))))
      = ((rs.map key).dedup).map
        (fun k => ((rs.filter (fun r => key r = k)).map (fun r => r.amount)).sum) := by
    apply List.map_congr_left
    intro k _
    show seriesSum ((rs.filter (fun r => key r = k)).map (fun r => r.amount))
        = ((rs.filter (fun r => key r = k)).map (fun r => r.amount)).sum
    unfold seriesSum
    congr 1
    rw [List.filter_eq_self]
    intro v hv
    obtain ⟨r, hr, hrv⟩ := List.mem_map.mp hv
    have := hna r (List.mem_of_mem_filter hr)
    rw [← hrv]
    simp [this]
  rw [h1]
  exact sum_over_classes key (fun r => r.amount) ((rs.map key).dedup)
    (List.nodup_dedup _)
    rs (fun r hr => List.mem_dedup.mpr (List.mem_map_of_mem key hr))

/-! ## Helper lemmas: the per-row write loops -/

lemma writeRowsAux_attempted {σ : Type} (fault : Nat → Option String)
    (ins : σ → SalesRecord → σ) :
    ∀ (ixs : List (Nat × SalesRecord)) (t : σ),
      (writeRowsAux fault ins t ixs).2.attempted = ixs.length
  | [], t => by simp [writeRowsAux]
  | (i, r) :: rest, t => by
      cases h : fault i <;>
        simp [writeRowsAux, h, writeRowsAux_attempted fault ins rest]

lemma writeRowsAux_failures {σ : Type} (fault : Nat → Option String)
    (ins : σ → SalesRecord → σ) :
    ∀ (ixs : List (Nat × SalesRecord)) (t : σ),
      (writeRowsAux fault ins t ixs).2.failures.length
        = ixs.countP (fun p => (fault p.1).isSome)
  | [], t => by simp [writeRowsAux]
  | (i, r) :: rest, t => by
      cases h : fault i <;>
        simp [writeRowsAux, h, List.countP_cons,
          writeRowsAux_failures fault ins rest]

lemma writeRowsAux_succeeded {σ : Type} (fault : Nat → Option String)
    (ins : σ → SalesRecord → σ) :
    ∀ (ixs : List (Nat × SalesRecord)) (t : σ),
      (writeRowsAux fault ins t ixs).2.succeeded
          + (writeRowsAux fault ins t ixs).2.failures.length
        = ixs.length
  | [], t => by simp [writeRowsAux]
  | (i, r) :: rest, t => by
      cases h : fault i
      · have := writeRowsAux_succeeded fault ins rest (ins t r)
        simp only [writeRowsAux, h]
        simp only [List.length_cons]
        omega
      · have := writeRowsAux_succeeded fault ins rest t
        simp only [writeRowsAux, h]
        simp only [List.length_cons]
        omega

lemma writeRowsAux_silver_mem (fault : Nat → Option String) :
    ∀ (ixs : List (Nat × SalesRecord)) (t : SilverTable) (x : SilverRow),
      x ∈ t.rows → x ∈ (writeRowsAux fault silverInsert t ixs).1.rows
  | [], t, x, hx => by simpa [writeRowsAux] using hx
  | (i, r) :: rest, t, x, hx => by
      cases h : fault i
      · simp only [writeRowsAux, h]
        exact writeRowsAux_silver_mem fault rest (silverInsert t r) x
          (by simp [silverInsert, hx])
      · simp only [writeRowsAux, h]
        exact writeRowsAux_silver_mem fault rest t x hx

lemma writeRowsAux_silver_present (fault : Nat → Option String) :
    ∀ (ixs : List (Nat × SalesRecord)) (t : SilverTable) (i : Nat) (r : SalesRecord),
      (i, r) ∈ ixs → fault i = none →
      ∃ sid, (⟨sid, r.order_id, r.sale_date, r.amount⟩ : SilverRow)
          ∈ (writeRowsAux fault silverInsert t ixs).1.rows
  | [], t, i, r, hmem, _ => absurd hmem (List.not_mem_nil _)
  | (j, r') :: rest, t, i, r, hmem, hf => by
      rcases List.mem_cons.mp hmem with hh | hh
      · injection hh with h1 h2
        subst h1; subst h2
        rw [writeRowsAux]
        simp only [hf]
        refine ⟨t.next, writeRowsAux_silver_mem fault rest (silverInsert t r) _ ?_⟩
        simp [silverInsert]
      · cases h : fault j
        · simp only [writeRowsAux, h]
          exact writeRowsAux_silver_present fault rest (silverInsert t r') i r hh hf
        · simp only [writeRowsAux, h]
          exact writeRowsAux_silver_present fault rest t i r hh hf

lemma writeRowsAux_bronze_key (fault : Nat → Option String) :
    ∀ (ixs : List (Nat × SalesRecord)) (t : BronzeTable) (k : NumVal),
      (tblGet t k).isSome = true →
      (tblGet (writeRowsAux fault bronzeInsert t ixs).1 k).isSome = true
  | [], t, k, hk => by simpa [writeRowsAux] using hk
  | (i, r) :: rest, t, k, hk => by
      cases h : fault i
      · simp only [writeRowsAux, h]
        exact writeRowsAux_bronze_key fault rest (bronzeInsert t r) k
          (tblGet_tblPut_isSome t r.order_id k _ hk)
      · simp only [writeRowsAux, h]
        exact writeRowsAux_bronze_key fault rest t k hk

lemma writeRowsAux_bronze_present (fault : Nat → Option String) :
    ∀ (ixs : List (Nat × SalesRecord)) (t : BronzeTable) (i : Nat) (r : SalesRecord),
      (i, r) ∈ ixs → fault i = none →
      (tblGet (writeRowsAux fault bronzeInsert t ixs).1 r.order_id).isSome = true
  | [], t, i, r, hmem, _ => absurd hmem (List.not_mem_nil _)
  | (j, r') :: rest, t, i, r, hmem, hf => by
      rcases List.mem_cons.mp hmem with hh | hh
      · injection hh with h1 h2
        subst h1; subst h2
        rw [writeRowsAux]
        simp only [hf]
        apply writeRowsAux_bronze_key fault rest (bronzeInsert t r)
        rw [bronzeInsert, tblGet_tblPut_self]
        rfl
      · cases h : fault j
        · simp only [writeRowsAux, h]
          exact writeRowsAux_bronze_present fault rest (bronzeInsert t r') i r hh hf
        · simp only [writeRowsAux, h]
          exact writeRowsAux_bronze_present fault rest t i r hh hf

lemma writeRowsAux_nofault {σ : Type} (ins : σ → SalesRecord → σ) :
    ∀ (ixs : List (Nat × SalesRecord)) (t : σ),
      (writeRowsAux (fun _ => none) ins t ixs).1 = ixs.foldl (fun t p => ins t p.2) t
  | [], t => by simp [writeRowsAux]
  | (i, r) :: rest, t => by
      simp only [writeRowsAux, List.foldl_cons]
      exact writeRowsAux_nofault ins rest (ins t r)

lemma bronze_foldl_zero :
    ∀ (rs : List SalesRecord) (v : BronzeVal), (∀ r ∈ rs, r.order_id = NumVal.fin 0) →
      rs.foldl bronzeInsert [(NumVal.fin 0, v)]
        = [(NumVal.fin 0,
            ((rs.getLast?).map (fun r => (⟨r.sale_date, r.amount⟩ : BronzeVal))).getD v)]
  | [], v, _ => by simp
  | r :: rest, v, hz => by
      have h0 : r.order_id = NumVal.fin 0 := hz r (by simp)
      simp only [List.foldl_cons]
      have hput : bronzeInsert [(NumVal.fin 0, v)] r
          = [(NumVal.fin 0, (⟨r.sale_date, r.amount⟩ : BronzeVal))] := by
        simp [bronzeInsert, h0, tblPut]
      rw [hput, bronze_foldl_zero rest _ (fun r' hr' => hz r' (by simp [hr']))]
      cases rest with
      | nil => simp
      | cons a l =>
          rw [List.getLast?_cons_cons]
          obtain ⟨x, hx⟩ := Option.isSome_iff_exists.mp
            (List.getLast?_isSome.mpr (List.cons_ne_nil a l))
          rw [hx]
          simp

lemma bronze_foldl_zero_all (rs : List SalesRecord)
    (hz : ∀ r ∈ rs, r.order_id = NumVal.fin 0) :
    rs.foldl bronzeInsert []
      = ((rs.getLast?).map
          (fun r => (NumVal.fin 0, (⟨r.sale_date, r.amount⟩ : BronzeVal)))).toList := by
  cases rs with
  | nil => rfl
  | cons r rest =>
      have h0 : r.order_id = NumVal.fin 0 := hz r (by simp)
      simp only [List.foldl_cons]
      have hput : bronzeInsert [] r = [(NumVal.fin 0, (⟨r.sale_date, r.amount⟩ : BronzeVal))] := by
        simp [bronzeInsert, h0, tblPut]
      rw [hput, bronze_foldl_zero rest _ (fun r' hr' => hz r' (by simp [hr']))]
      cases rest with
      | nil => simp
      | cons a l =>
          rw [List.getLast?_cons_cons]
          obtain ⟨x, hx⟩ := Option.isSome_iff_exists.mp
            (List.getLast?_isSome.mpr (List.cons_ne_nil a l))
          rw [hx]
          simp

lemma normRow_isSome {ho hr : Bool} {r : RawRow} (h1 : (oidOf ho r).isNA = false)
    (h2 : r.sale_date ≠ none) (h3 : r.amount.isNA = false) :
    (normRow ho hr r).isSome = true := by
  unfold normRow
  cases hd : r.sale_date with
  | none => exact absurd hd h2
  | some d => simp [h1, h3]

lemma createIfNotExists_idem (c : Option TableShape) (s : TableShape) :
    createIfNotExists (createIfNotExists c s) s = createIfNotExists c s := by
  cases c <;> rfl

/-! ## Claim theorems -/

/-- C1: for every normalized record set, the grand total of the gold-by-order
rollup and the grand total of the gold-by-date rollup both equal the sum of
all record amounts — grouping by any dimension preserves the overall sum. -/
theorem rollup_grand_totals_reconcile (f : RawFrame) :
    grandTotal (goldByOrder (normalizeFrame f)) = totalAmount (normalizeFrame f) ∧
    grandTotal (goldByDate (normalizeFrame f)) = totalAmount (normalizeFrame f) :=
  ⟨grandTotal_rollupBy _ _ (normalizeFrame_amount_not_na f),
   grandTotal_rollupBy _ _ (normalizeFrame_amount_not_na f)⟩

/-- C2: a raw row whose required `order_id`, `sale_date` or `amount` field
fails to coerce is excluded by normalization, the normalized output is never
longer than the input, and every normalized record originates from a row on
which all three required coercions succeeded — so an excluded row reaches no
downstream stage. -/
theorem normalization_excludes_unparseable (f : RawFrame) :
    (normalizeFrame f).length ≤ f.rows.length ∧
    (∀ r ∈ f.rows,
      ((oidOf f.hasOrderId r).isNA = true ∨ r.sale_date = none ∨ r.amount.isNA = true) →
      normRow f.hasOrderId f.hasRegion r = none) ∧
    (∀ s ∈ normalizeFrame f, ∃ r ∈ f.rows,
      normRow f.hasOrderId f.hasRegion r = some s ∧
      (oidOf f.hasOrderId r).isNA = false ∧ r.sale_date ≠ none ∧ r.amount.isNA = false) := by
  refine ⟨List.length_filterMap_le _ _, fun r _ h => normRow_eq_none h, fun s hs => ?_⟩
  obtain ⟨r, hmem, hr⟩ := List.mem_filterMap.mp hs
  obtain ⟨_, hdate, _, hoid, hamt⟩ := normRow_eq_some hr
  exact ⟨r, hmem, hr, hoid, by rw [hdate]; exact Option.some_ne_none _, hamt⟩

/-- C2 witness: on a concrete one-row frame with an unparseable `order_id`
the row is excluded and the output is not longer than the input. -/
theorem normalization_excludes_unparseable_witness :
    (normalizeFrame frameBad).length ≤ frameBad.rows.length ∧
    normRow frameBad.hasOrderId frameBad.hasRegion ⟨NumVal.nan, some 0, NumVal.fin 1, none⟩
      = none :=
  ⟨(normalization_excludes_unparseable frameBad).1,
   (normalization_excludes_unparseable frameBad).2.1 _ (by decide) (Or.inl rfl)⟩

/-- C3: writing two records with the same `order_id` and different amounts
into a bronze table with well-formed (duplicate-free) keys leaves exactly one
entry under that `order_id`, and its stored values are those of the later
write — the Cassandra `INSERT` is a last-write-wins upsert. -/
theorem bronze_upsert_last_write_wins (t : BronzeTable) (r1 r2 : SalesRecord)
    (hnd : (t.map Prod.fst).Nodup) (hk : r1.order_id = r2.order_id)
    (ha : r1.amount ≠ r2.amount) :
    (bronzeInsert (bronzeInsert t r1) r2).countP (fun e => e.1 = r2.order_id) = 1 ∧
    tblGet (bronzeInsert (bronzeInsert t r1) r2) r2.order_id
      = some ⟨r2.sale_date, r2.amount⟩ :=
  ⟨tblPut_countP_key _ _ _ (tblPut_keys_nodup t _ _ hnd),
   tblGet_tblPut_self _ _ _⟩

/-- C3 witness: two concrete writes under the same `order_id` leave one entry
holding the later values. -/
theorem bronze_upsert_last_write_wins_witness :
    (bronzeInsert (bronzeInsert [] recA) recA2).countP (fun e => e.1 = recA2.order_id) = 1 ∧
    tblGet (bronzeInsert (bronzeInsert [] recA) recA2) recA2.order_id
      = some ⟨recA2.sale_date, recA2.amount⟩ :=
  bronze_upsert_last_write_wins [] recA recA2 (by simp) rfl (by decide)

/-- C4: when the input has no `order_id` column, every normalized record
carries the placeholder identifier `0`, and a row is dropped exactly when its
`sale_date` or `amount` fails to coerce — never on account of the missing
identifier column. -/
theorem missing_order_id_placeholder (f : RawFrame) (h : f.hasOrderId = false) :
    (∀ s ∈ normalizeFrame f, s.order_id = NumVal.fin 0) ∧
    (∀ r ∈ f.rows,
      (normRow f.hasOrderId f.hasRegion r = none
        ↔ (r.sale_date = none ∨ r.amount.isNA = true))) := by
  refine ⟨normalizeFrame_oid_zero f h, fun r _ => ⟨fun hn => ?_, fun hd => ?_⟩⟩
  · by_contra hc
    push_neg at hc
    have hamt : r.amount.isNA = false := by
      rcases Bool.eq_false_or_eq_true r.amount.isNA with hh | hh
      · exact absurd hh hc.2
      · exact hh
    have hoid : (oidOf f.hasOrderId r).isNA = false := by
      rw [oidOf, h]
      rfl
    have := @normRow_isSome f.hasOrderId f.hasRegion r hoid hc.1 hamt
    rw [hn] at this
    cases this
  · apply normRow_eq_none
    rcases hd with hd | hd
    · exact Or.inr (Or.inl hd)
    · exact Or.inr (Or.inr hd)

/-- C4 witness: a concrete frame without an `order_id` column keeps its valid
row under the placeholder identifier `0`. -/
theorem missing_order_id_placeholder_witness :
    normalizeFrame frameNoOid
      = [⟨NumVal.fin 0, 0, NumVal.fin 5, none⟩, ⟨NumVal.fin 0, 1, NumVal.fin 7, none⟩] ∧
    (⟨NumVal.fin 0, 0, NumVal.fin 5, none⟩ : SalesRecord).order_id = NumVal.fin 0 :=
  ⟨rfl, (missing_order_id_placeholder frameNoOid rfl).1 _ (by decide)⟩

/-- C5 counterexample: a frame with a `region` column but no rows yields no
normalized record carrying a region value, yet the gold-by-region stage is
not skipped — it runs and produces an empty rollup, contrary to the claim
that the stage runs iff some normalized record carries a region value. -/
theorem region_stage_counterexample :
    normalizeFrame frameEmptyRegion = [] ∧
    frameEmptyRegion.hasRegion = true ∧
    goldRegionStage frameEmptyRegion.hasRegion (normalizeFrame frameEmptyRegion) = some [] :=
  ⟨rfl, rfl, rfl⟩

/-- C5 amended: the gold-by-region stage runs iff the frame has a `region`
column; with the column present it runs even when no record carries a region
value (then producing an empty rollup), and it is skipped entirely iff the
column is absent. -/
theorem region_stage_iff_region_column (f : RawFrame) :
    (goldRegionStage f.hasRegion (normalizeFrame f)).isSome = f.hasRegion := by
  cases h : f.hasRegion <;> simp [goldRegionStage, h]

/-- C6: when exactly one write attempt of the batch faults, both layer
writes report N attempts, N-1 successes and 1 failure, no exception escapes
the loop (the write functions are total), and every non-faulted record is
afterward present in the store: literally in the silver table under some
generated key, and under its `order_id` key in the bronze table. -/
theorem write_fault_isolation (fault : Nat → Option String) (rs : List SalesRecord)
    (tb : BronzeTable) (ts : SilverTable)
    (hone : rs.enum.countP (fun p => (fault p.1).isSome) = 1) :
    (writeBronze fault tb rs).2.attempted = rs.length ∧
    (writeBronze fault tb rs).2.succeeded = rs.length - 1 ∧
    (writeBronze fault tb rs).2.failures.length = 1 ∧
    (writeSilver fault ts rs).2.attempted = rs.length ∧
    (writeSilver fault ts rs).2.succeeded = rs.length - 1 ∧
    (writeSilver fault ts rs).2.failures.length = 1 ∧
    (∀ p ∈ rs.enum, fault p.1 = none →
      (∃ sid, (⟨sid, p.2.order_id, p.2.sale_date, p.2.amount⟩ : SilverRow)
          ∈ (writeSilver fault ts rs).1.rows) ∧
      (tblGet (writeBronze fault tb rs).1 p.2.order_id).isSome = true) := by
  have hlen : rs.enum.length = rs.length := List.enum_length
  have hab := writeRowsAux_attempted fault bronzeInsert rs.enum tb
  have hfb := writeRowsAux_failures fault bronzeInsert rs.enum tb
  have hsb := writeRowsAux_succeeded fault bronzeInsert rs.enum tb
  have has := writeRowsAux_attempted fault silverInsert rs.enum ts
  have hfs := writeRowsAux_failures fault silverInsert rs.enum ts
  have hss := writeRowsAux_succeeded fault silverInsert rs.enum ts
  rw [hone] at hfb hfs
  refine ⟨by rw [writeBronze, hab, hlen], by rw [writeBronze]; omega,
    by rw [writeBronze, hfb], by rw [writeSilver, has, hlen], by rw [writeSilver]; omega,
    by rw [writeSilver, hfs], fun p hp hf => ?_⟩
  exact ⟨writeRowsAux_silver_present fault rs.enum ts p.1 p.2 (by simpa using hp) hf,
    writeRowsAux_bronze_present fault rs.enum tb p.1 p.2 (by simpa using hp) hf⟩

/-- C6 witness: a concrete two-record batch whose first attempt faults gets
2 attempts, 1 success and 1 failure on each layer, with the surviving record
present in both tables. -/
theorem write_fault_isolation_witness :
    rsW.enum.countP (fun p => (faultW p.1).isSome) = 1 ∧
    (writeBronze faultW [] rsW).2.succeeded = rsW.length - 1 ∧
    (writeSilver faultW emptySilver rsW).2.failures.length = 1 :=
  ⟨by decide,
   (write_fault_isolation faultW rsW [] emptySilver (by decide)).2.1,
   (write_fault_isolation faultW rsW [] emptySilver (by decide)).2.2.2.2.2.1⟩

/-- C7: schema provisioning is idempotent — a second invocation is a no-op,
and any table that already exists keeps its shape unchanged (the model of
`CREATE TABLE IF NOT EXISTS` never errors). -/
theorem schema_provisioning_idempotent (st : SchemaStore) :
    provisionSchemas (provisionSchemas st) = provisionSchemas st ∧
    (∀ s, st.bronze = some s → (provisionSchemas st).bronze = some s) ∧
    (∀ s, st.silver = some s → (provisionSchemas st).silver = some s) ∧
    (∀ s, st.gold1 = some s → (provisionSchemas st).gold1 = some s) ∧
    (∀ s, st.gold2 = some s → (provisionSchemas st).gold2 = some s) ∧
    (∀ s, st.gold3 = some s → (provisionSchemas st).gold3 = some s) := by
  refine ⟨?_, ?_, ?_, ?_, ?_, ?_⟩
  · simp [provisionSchemas, createIfNotExists_idem]
  all_goals intro s hs; simp [provisionSchemas, createIfNotExists, hs]

/-- C7 witness: on a store where all five tables exist, re-running
provisioning keeps the bronze schema unchanged. -/
theorem schema_provisioning_idempotent_witness :
    (provisionSchemas emptySchemas).bronze = some bronzeShape ∧
    (provisionSchemas (provisionSchemas emptySchemas)).bronze = some bronzeShape :=
  ⟨rfl, (schema_provisioning_idempotent (provisionSchemas emptySchemas)).2.1 bronzeShape rfl⟩

/-- C8: writing the same record to silver twice appends two new rows under
two distinct generated `sale_id` keys and leaves every pre-existing silver
row in place — silver writes are pure inserts under fresh keys. -/
theorem silver_insert_appends_fresh (t : SilverTable) (r : SalesRecord) :
    (silverInsert (silverInsert t r) r).rows
      = t.rows ++ [⟨t.next, r.order_id, r.sale_date, r.amount⟩,
                   ⟨t.next + 1, r.order_id, r.sale_date, r.amount⟩] ∧
    t.next ≠ t.next + 1 := by
  refine ⟨?_, by omega⟩
  simp [silverInsert]

/-- C9 counterexample: a raw row whose `amount` coerces to positive infinity
(a non-finite float that is not the `NaN` missing marker) survives
normalization, so a non-finite amount does reach the downstream layers. -/
theorem nonfinite_amount_counterexample :
    normalizeFrame frameInf = [⟨NumVal.fin 1, 0, NumVal.posInf, none⟩] ∧
    NumVal.isFinite NumVal.posInf = false := ⟨rfl, rfl⟩

/-- C9 amended: normalization excludes exactly the rows whose `amount`
carries the `NaN` missing marker; every surviving record's amount is
non-missing, but it may be one of the infinities, which `dropna` does not
remove. -/
theorem normalized_amount_not_missing (f : RawFrame) :
    ∀ s ∈ normalizeFrame f, s.amount.isNA = false :=
  normalizeFrame_amount_not_na f

/-- C9 amended witness: the concrete surviving record of `frameInf` has a
non-missing amount. -/
theorem normalized_amount_not_missing_witness :
    (⟨NumVal.fin 1, 0, NumVal.posInf, none⟩ : SalesRecord).amount.isNA = false :=
  normalized_amount_not_missing frameInf _ (by decide)

/-- C10: when the input has no `order_id` column, all records collide on the
placeholder key `0`, so a fault-free bronze write stage starting from an
empty table ends with at most one row: the entry keyed `0` holding the last
surviving row's `sale_date` and `amount` (or no row when nothing survives). -/
theorem bronze_collapses_on_placeholder (f : RawFrame) (h : f.hasOrderId = false) :
    (writeBronze (fun _ => none) [] (normalizeFrame f)).1
      = (((normalizeFrame f).getLast?).map
          (fun r => (NumVal.fin 0, (⟨r.sale_date, r.amount⟩ : BronzeVal)))).toList ∧
    ((writeBronze (fun _ => none) [] (normalizeFrame f)).1).length ≤ 1 := by
  have heq : (writeBronze (fun _ => none) [] (normalizeFrame f)).1
      = (normalizeFrame f).foldl bronzeInsert [] := by
    rw [writeBronze, writeRowsAux_nofault]
    conv_rhs => rw [← List.enum_map_snd (normalizeFrame f)]
    rw [List.foldl_map]
  constructor
  · rw [heq, bronze_foldl_zero_all _ (normalizeFrame_oid_zero f h)]
  · rw [heq, bronze_foldl_zero_all _ (normalizeFrame_oid_zero f h)]
    cases (normalizeFrame f).getLast? <;> simp

/-- C10 witness: the concrete two-row frame without an `order_id` column ends
with the single bronze entry keyed `0` holding the last row's values. -/
theorem bronze_collapses_on_placeholder_witness :
    (writeBronze (fun _ => none) [] (normalizeFrame frameNoOid)).1
      = [(NumVal.fin 0, (⟨1, NumVal.fin 7⟩ : BronzeVal))] :=
  ((bronze_collapses_on_placeholder frameNoOid rfl).1).trans (by decide)
